import Mathlib

/-!
Shallow embedding of the subscription_lib entitlement/upgrade-eligibility
core and its orchestration layer, with theorems settling the frozen claims.

Conventions of the embedding:
* JS numbers that carry prices are modelled as `Rat` (the code only ever
  compares and subtracts them).
* JS `Map` objects are modelled as association lists with JS insertion-order
  semantics: `set` updates an existing key in place, otherwise appends;
  `get` returns the first (unique) binding; iteration follows list order.
* JS `string | null | undefined` values are `Option String`; JS truthiness
  of such a value (null, undefined and "" are falsy) is `optTruthy`.
* A rejecting `Promise` is an `Except` error; an `async` method that awaits
  one adapter call is a function from the adapter call result to the new
  state (or an error, when the code lets the rejection propagate).
-/

set_option linter.unusedVariables false

namespace SubLib

/-- SubscriptionPeriod of src/src/types/period: the five canonical periods. -/
inductive SubscriptionPeriod where
  | weekly
  | monthly
  | quarterly
  | yearly
  | lifetime
deriving DecidableEq, Repr

/-- PERIOD_RANKS of src/src/types/period: weekly 1 through lifetime 5.
findUpgradeablePackages writes out the identical table again locally as
periodRanks; this single definition stands for both. -/
def PERIOD_RANKS : SubscriptionPeriod → Nat
  | .weekly => 1
  | .monthly => 2
  | .quarterly => 3
  | .yearly => 4
  | .lifetime => 5

/-- SubscriptionProduct (src/src/types/subscription): fields read anywhere in
the embedded code. Prices are `Rat`. -/
structure SubscriptionProduct where
  productId : String
  name : String := ""
  description : Option String := none
  price : Rat
  priceString : String := ""
  currency : String := ""
  period : SubscriptionPeriod
  periodDuration : String := ""
  trialPeriod : Option String := none
  introPrice : Option String := none
  introPricePeriod : Option String := none
  introPriceCycles : Option Nat := none
deriving DecidableEq, Repr

/-- SubscriptionPackage (src/src/types/subscription): a package with an
optional product (absent exactly for the free tier). -/
structure SubscriptionPackage where
  packageId : String
  name : String := ""
  product : Option SubscriptionProduct := none
  entitlements : List String := []
deriving DecidableEq, Repr

/-- JS Map.prototype.set on an association list: an existing key keeps its
insertion position and gets the new value; a new key is appended. -/
def mapSet {κ α : Type} [DecidableEq κ] (m : List (κ × α)) (k : κ) (v : α) :
    List (κ × α) :=
  match m with
  | [] => [(k, v)]
  | (k₀, v₀) :: rest =>
      if k₀ = k then (k, v) :: rest else (k₀, v₀) :: mapSet rest k v

/-- JS Map.prototype.get on an association list. -/
def mapGet {κ α : Type} [DecidableEq κ] (m : List (κ × α)) (k : κ) : Option α :=
  match m with
  | [] => none
  | (k₀, v₀) :: rest => if k₀ = k then some v₀ else mapGet rest k

/-- The price a package contributes to level computation:
pkg.product?.price ?? 0 (both in the sort comparator and the level walk). -/
def pkgPrice (pkg : SubscriptionPackage) : Rat :=
  (pkg.product.map (·.price)).getD 0

/-- First loop of calculatePackageLevels, walking the packages in order with
the two maps as accumulators: free-tier packages are written to the levels
map with level 0; paid packages are pushed onto their period group in the
byPeriod map. -/
def levelsPhase1Aux (levels : List (String × Nat))
    (byPeriod : List (SubscriptionPeriod × List SubscriptionPackage)) :
    List SubscriptionPackage →
      List (String × Nat) × List (SubscriptionPeriod × List SubscriptionPackage)
  | [] => (levels, byPeriod)
  | pkg :: rest =>
      match pkg.product with
      | none => levelsPhase1Aux (mapSet levels pkg.packageId 0) byPeriod rest
      | some prod =>
          levelsPhase1Aux levels
            (mapSet byPeriod prod.period
              ((mapGet byPeriod prod.period).getD [] ++ [pkg])) rest

/-- First loop of calculatePackageLevels started on the two fresh maps.
Returns (levels so far, byPeriod). -/
def levelsPhase1 (packages : List SubscriptionPackage) :
    List (String × Nat) × List (SubscriptionPeriod × List SubscriptionPackage) :=
  levelsPhase1Aux [] [] packages

/-- One step of the JS stable sort by the comparator priceA - priceB: insert
a package after every already placed package of smaller or equal price. -/
def insertByPrice (p : SubscriptionPackage) :
    List SubscriptionPackage → List SubscriptionPackage
  | [] => [p]
  | q :: qs => if pkgPrice p < pkgPrice q then p :: q :: qs else q :: insertByPrice p qs

/-- The sort [...periodPackages].sort((a, b) => priceA - priceB): JS sort is
stable, so the result is the stable ascending-by-price ordering. -/
def sortByPrice (ps : List SubscriptionPackage) : List SubscriptionPackage :=
  ps.foldl (fun acc p => insertByPrice p acc) []

/-- The level-assignment walk of calculatePackageLevels over one sorted
period group: currentLevel increments when lastPrice is null or the price is
strictly greater; every package is then written at currentLevel. -/
def assignLevels (sorted : List SubscriptionPackage) (levels : List (String × Nat))
    (currentLevel : Nat) (lastPrice : Option Rat) : List (String × Nat) :=
  match sorted with
  | [] => levels
  | pkg :: rest =>
      match lastPrice with
      | none =>
          assignLevels rest (mapSet levels pkg.packageId (currentLevel + 1))
            (currentLevel + 1) (some (pkgPrice pkg))
      | some lp =>
          if lp < pkgPrice pkg then
            assignLevels rest (mapSet levels pkg.packageId (currentLevel + 1))
              (currentLevel + 1) (some (pkgPrice pkg))
          else
            assignLevels rest (mapSet levels pkg.packageId currentLevel)
              currentLevel (some lp)

/-- calculatePackageLevels (src level-calculator): free tier written at 0,
each period group sorted by price then walked assigning levels 1, 2, ... -/
def calculatePackageLevels (packages : List SubscriptionPackage) :
    List (String × Nat) :=
  let phase1 := levelsPhase1 packages
  phase1.2.foldl (fun lv grp => assignLevels (sortByPrice grp.2) lv 0 none) phase1.1

/-- getPackageLevel (src level-calculator): recompute the map, default 0. -/
def getPackageLevel (packageId : String) (packages : List SubscriptionPackage) :
    Nat :=
  (mapGet (calculatePackageLevels packages) packageId).getD 0

/-- FindUpgradeableParams of the level calculator. -/
structure FindUpgradeableParams where
  packageId : Option String := none
  productId : Option String := none
deriving DecidableEq, Repr

/-- The current argument of findUpgradeablePackages:
string | FindUpgradeableParams | null | undefined. -/
inductive CurrentRef where
  | nullish
  | ofString (s : String)
  | ofParams (p : FindUpgradeableParams)
deriving DecidableEq, Repr

/-- JS truthiness of a string | null | undefined value. -/
def optTruthy : Option String → Bool
  | none => false
  | some s => s ≠ ""

/-- Parameter normalization at the top of findUpgradeablePackages:
(currentPackageId, currentProductId). -/
def normalizeCurrent : CurrentRef → Option String × Option String
  | .nullish => (none, none)
  | .ofString s => (some s, none)
  | .ofParams p => (p.packageId, p.productId)

/-- The current-package lookup of findUpgradeablePackages: find by packageId
when that id is truthy, else fall back to a find by product id when that id
is truthy. -/
def findCurrentPkg (currentPackageId currentProductId : Option String)
    (packages : List SubscriptionPackage) : Option SubscriptionPackage :=
  let byId :=
    if optTruthy currentPackageId then
      packages.find? (fun p => some p.packageId = currentPackageId)
    else none
  match byId with
  | some pkg => some pkg
  | none =>
      if optTruthy currentProductId then
        packages.find? (fun p => p.product.map (·.productId) = currentProductId)
      else none

/-- The whole resolution step of findUpgradeablePackages: none when the
current argument yields no truthy id at all or when no package matches. -/
def resolveCurrent (current : CurrentRef) (packages : List SubscriptionPackage) :
    Option SubscriptionPackage :=
  let ids := normalizeCurrent current
  if !optTruthy ids.1 && !optTruthy ids.2 then none
  else findCurrentPkg ids.1 ids.2 packages

/-- The accumulation loop of findUpgradeablePackages: skip free-tier
packages, skip the matched package by id, keep a package when its period
rank and its level are both at least the current ones. -/
def upgradeLoop (packages : List SubscriptionPackage) (matchedPackageId : String)
    (currentLevel : Nat) (currentPeriod : SubscriptionPeriod)
    (levels : List (String × Nat)) : List String :=
  match packages with
  | [] => []
  | pkg :: rest =>
      match pkg.product with
      | none => upgradeLoop rest matchedPackageId currentLevel currentPeriod levels
      | some prod =>
          if pkg.packageId = matchedPackageId then
            upgradeLoop rest matchedPackageId currentLevel currentPeriod levels
          else if PERIOD_RANKS prod.period ≥ PERIOD_RANKS currentPeriod ∧
              (mapGet levels pkg.packageId).getD 0 ≥ currentLevel then
            pkg.packageId :: upgradeLoop rest matchedPackageId currentLevel currentPeriod levels
          else
            upgradeLoop rest matchedPackageId currentLevel currentPeriod levels

/-- findUpgradeablePackages (src level-calculator). -/
def findUpgradeablePackages (current : CurrentRef)
    (packages : List SubscriptionPackage) : List String :=
  let ids := normalizeCurrent current
  if !optTruthy ids.1 && !optTruthy ids.2 then
    packages.map (·.packageId)
  else
    match findCurrentPkg ids.1 ids.2 packages with
    | none => packages.map (·.packageId)
    | some currentPkg =>
        match currentPkg.product with
        | none => (packages.filter (fun p => p.product.isSome)).map (·.packageId)
        | some currentProduct =>
            let levels := calculatePackageLevels packages
            upgradeLoop packages currentPkg.packageId
              ((mapGet levels currentPkg.packageId).getD 0)
              currentProduct.period levels

/-- ASCII uppercasing, modelling String.prototype.toUpperCase on the inputs
the parser distinguishes (the patterns it matches are all ASCII). -/
def toUpper (s : String) : String := ⟨s.data.map Char.toUpper⟩

/-- Digit run to the number parseInt(match, 10) yields. -/
def digitsToNat (ds : List Char) : Nat :=
  ds.foldl (fun acc c => 10 * acc + (c.toNat - 48)) 0

/-- The anchored regex P(d+)([DWMY]) of parseISO8601Period, d+ being one or
more ASCII digits: a leading P, a nonempty digit run, one unit letter, end
of string. Returns (parsed integer, unit letter) on a match. -/
def matchPeriodPattern (s : String) : Option (Nat × Char) :=
  match s.data with
  | [] => none
  | c :: rest =>
      if c = 'P' then
        match rest.takeWhile Char.isDigit, rest.dropWhile Char.isDigit with
        | [], _ => none
        | digits, [u] =>
            if u = 'D' ∨ u = 'W' ∨ u = 'M' ∨ u = 'Y' then
              some (digitsToNat digits, u)
            else none
        | _, _ => none
      else none

/-- The switch (value, unit) block of parseISO8601Period: a matched case
returns its period, break falls through to the shared monthly default,
modelled as none. -/
def parseSwitchDWMY (value : Nat) (unit : Char) : Option SubscriptionPeriod :=
  if unit = 'D' then
    if value = 7 then some .weekly
    else if 28 ≤ value ∧ value ≤ 31 then some .monthly
    else if 84 ≤ value ∧ value ≤ 93 then some .quarterly
    else if 365 ≤ value then some .yearly
    else none
  else if unit = 'W' then
    if value = 1 then some .weekly
    else if value = 4 ∨ value = 5 then some .monthly
    else if value = 13 then some .quarterly
    else if value = 52 then some .yearly
    else none
  else if unit = 'M' then
    if value = 1 then some .monthly
    else if value = 3 then some .quarterly
    else if value = 6 then some .quarterly
    else if value = 12 then some .yearly
    else none
  else if unit = 'Y' then some .yearly
  else none

/-- parseISO8601Period (src/src/utils/period-parser.ts): nullish or empty
input is lifetime; otherwise the input is uppercased, the literal fast
paths are tried, then the general P(d+)([DWMY]) pattern with the unit
switch, and everything else defaults to monthly. -/
def parseISO8601Period (duration : Option String) : SubscriptionPeriod :=
  match duration with
  | none => .lifetime
  | some s =>
      if s = "" then .lifetime
      else if toUpper s = "P1W" ∨ toUpper s = "P7D" then .weekly
      else if toUpper s = "P1M" then .monthly
      else if toUpper s = "P3M" then .quarterly
      else if toUpper s = "P1Y" ∨ toUpper s = "P12M" then .yearly
      else
        match matchPeriodPattern (toUpper s) with
        | some vu => (parseSwitchDWMY vu.1 vu.2).getD .monthly
        | none => .monthly

/-- getPeriodRank (src/src/utils/period-parser.ts). -/
def getPeriodRank (period : SubscriptionPeriod) : Nat := PERIOD_RANKS period

/-- isPeriodGreaterOrEqual (src/src/utils/period-parser.ts). -/
def isPeriodGreaterOrEqual (a b : SubscriptionPeriod) : Bool :=
  getPeriodRank a ≥ getPeriodRank b

/-- The unit table exactly as claim C3 words it: D maps 7 to weekly, 28-31
to monthly, 84-93 to quarterly, at least 365 to yearly; W maps 1 to weekly,
4 or 5 to monthly, 13 to quarterly, 52 to yearly; M maps 1 to monthly, 3 or
6 to quarterly, 12 to yearly; Y maps any value to yearly; every value a row
does not cover falls back to monthly. -/
def claimUnitTable (value : Nat) (unit : Char) : SubscriptionPeriod :=
  if unit = 'D' then
    if value = 7 then .weekly
    else if 28 ≤ value ∧ value ≤ 31 then .monthly
    else if 84 ≤ value ∧ value ≤ 93 then .quarterly
    else if 365 ≤ value then .yearly
    else .monthly
  else if unit = 'W' then
    if value = 1 then .weekly
    else if value = 4 ∨ value = 5 then .monthly
    else if value = 13 then .quarterly
    else if value = 52 then .yearly
    else .monthly
  else if unit = 'M' then
    if value = 1 then .monthly
    else if value = 3 then .quarterly
    else if value = 6 then .quarterly
    else if value = 12 then .yearly
    else .monthly
  else .yearly

/-- Claim C3 as one function, following the words of the claim: nullish or
empty input gives lifetime; any other input is uppercased and classified
through the single P(integer)(unit) table (the literal rules P1W, P7D, P1M,
P3M, P1Y, P12M of the claim are the corresponding table rows); every string
not of that shape gives monthly. -/
def classifyPeriodClaim (duration : Option String) : SubscriptionPeriod :=
  match duration with
  | none => .lifetime
  | some s =>
      if s = "" then .lifetime
      else
        match matchPeriodPattern (toUpper s) with
        | some vu => claimUnitTable vu.1 vu.2
        | none => .monthly

/-! Orchestration layer: adapter data shapes, SubscriptionService state and
its methods, and the singleton with its listener bookkeeping. -/

/-- One entry of offering metadata as far as extractEntitlementsFromMetadata
reads it: the entitlements array may hold strings, objects with a string
identifier, or anything else. -/
inductive MetaEnt where
  | str (s : String)
  | objWithId (identifier : String)
  | other
deriving DecidableEq, Repr

/-- Offering metadata, restricted to the two keys the service reads: an
entitlement value when it is a string, and an entitlements array. -/
structure OfferMetadata where
  entitlement : Option String := none
  entitlements : Option (List MetaEnt) := none
deriving DecidableEq, Repr

/-- AdapterPricingPhase (src/src/types/adapter), fields read by parsePackage. -/
structure AdapterPricingPhase where
  periodDuration : Option String := none
  priceString : Option String := none
  cycleCount : Option Nat := none
deriving DecidableEq, Repr

/-- AdapterSubscriptionOption (src/src/types/adapter). -/
structure AdapterSubscriptionOption where
  id : String := ""
  trial : Option AdapterPricingPhase := none
  introPrice : Option AdapterPricingPhase := none
deriving DecidableEq, Repr

/-- AdapterProduct (src/src/types/adapter). -/
structure AdapterProduct where
  identifier : String
  title : String := ""
  description : Option String := none
  price : Rat := 0
  priceString : String := ""
  currencyCode : String := ""
  normalPeriodDuration : Option String := none
  subscriptionOptions : Option (List (String × AdapterSubscriptionOption)) := none
deriving DecidableEq, Repr

/-- AdapterPackage (src/src/types/adapter). -/
structure AdapterPackage where
  identifier : String
  product : AdapterProduct
deriving DecidableEq, Repr

/-- AdapterOffering (src/src/types/adapter): JS object entries are ordered,
so availablePackages and the all map below are lists. -/
structure AdapterOffering where
  identifier : String := ""
  metadata : Option OfferMetadata := none
  availablePackages : List AdapterPackage := []
deriving DecidableEq, Repr

/-- AdapterOfferings (src/src/types/adapter). -/
structure AdapterOfferings where
  all : List (String × AdapterOffering) := []
  current : Option AdapterOffering := none
deriving DecidableEq, Repr

/-- AdapterEntitlementInfo (src/src/types/adapter). -/
structure AdapterEntitlementInfo where
  identifier : String := ""
  productIdentifier : String
  expirationDate : Option String := none
  willRenew : Bool := false
deriving DecidableEq, Repr

/-- AdapterCustomerInfo (src/src/types/adapter): entitlements.active keyed
by entitlement id, in object insertion order. -/
structure AdapterCustomerInfo where
  activeSubscriptions : List String := []
  entitlements : List (String × AdapterEntitlementInfo) := []
  managementUrl : Option String := none
deriving DecidableEq, Repr

/-- SubscriptionOffer (src/src/types/subscription). -/
structure SubscriptionOffer where
  offerId : String
  metadata : Option OfferMetadata := none
  packages : List SubscriptionPackage := []
deriving DecidableEq, Repr

/-- CurrentSubscription (src/src/types/subscription); the expiration date is
kept as the ISO string it is built from. -/
structure CurrentSubscription where
  isActive : Bool
  productId : Option String := none
  packageId : Option String := none
  entitlements : List String := []
  period : Option SubscriptionPeriod := none
  expirationDate : Option String := none
  willRenew : Option Bool := none
deriving DecidableEq, Repr

/-- FreeTierConfig (src/src/types/subscription). -/
structure FreeTierConfig where
  packageId : String
  name : String := ""
deriving DecidableEq, Repr

/-- SubscriptionService.extractEntitlementsFromMetadata: a string-valued
entitlement key contributes itself; the entitlements array contributes its
string entries and the identifier of its object entries. -/
def extractEntitlementsFromMetadata (metadata : Option OfferMetadata) :
    List String :=
  match metadata with
  | none => []
  | some m =>
      (match m.entitlement with
       | some e => [e]
       | none => []) ++
      (match m.entitlements with
       | some ents =>
           ents.foldr
             (fun ent acc =>
               match ent with
               | .str s => s :: acc
               | .objWithId id => id :: acc
               | .other => acc) []
       | none => [])

/-- SubscriptionService.parsePackage: the adapter package is turned into a
SubscriptionPackage, the first subscription option supplying trial and
intro-price data and the period coming from parseISO8601Period. -/
def parsePackage (pkg : AdapterPackage) (metadataEntitlements : List String) :
    SubscriptionPackage :=
  let product := pkg.product
  let defaultOption :=
    product.subscriptionOptions.bind (fun opts => (opts.map Prod.snd).head?)
  { packageId := pkg.identifier
    name := product.title
    product := some
      { productId := product.identifier
        name := product.title
        description := product.description
        price := product.price
        priceString := product.priceString
        currency := product.currencyCode
        period := parseISO8601Period product.normalPeriodDuration
        periodDuration := product.normalPeriodDuration.getD ""
        trialPeriod := (defaultOption.bind (·.trial)).bind (·.periodDuration)
        introPrice := (defaultOption.bind (·.introPrice)).bind (·.priceString)
        introPricePeriod := (defaultOption.bind (·.introPrice)).bind (·.periodDuration)
        introPriceCycles := (defaultOption.bind (·.introPrice)).bind (·.cycleCount) }
    entitlements := metadataEntitlements }

/-- SubscriptionService.parseOffering. -/
def parseOffering (offerId : String) (offering : AdapterOffering) :
    SubscriptionOffer :=
  let metadataEntitlements := extractEntitlementsFromMetadata offering.metadata
  { offerId := offerId
    metadata := offering.metadata
    packages := offering.availablePackages.map (parsePackage · metadataEntitlements) }

/-- The mutable fields of a SubscriptionService instance. -/
structure ServiceState where
  freeTier : FreeTierConfig
  offersCache : List (String × SubscriptionOffer) := []
  currentSubscription : Option CurrentSubscription := none
  isLoadingOfferings : Bool := false
  isLoadingCustomerInfo : Bool := false
deriving DecidableEq, Repr

/-- The cache rebuild inside loadOfferings: clear, then set every entry of
the offerings.all object in order. -/
def buildOffersCache (all : List (String × AdapterOffering)) :
    List (String × SubscriptionOffer) :=
  all.foldl (fun c kv => mapSet c kv.1 (parseOffering kv.1 kv.2)) []

/-- SubscriptionService.loadOfferings, as a function of the state and of the
result of the awaited adapter.getOfferings call. The await sits in a
try/finally with no catch, so a rejected adapter promise propagates (the
finally only resets the in-flight flag, leaving the state as it was); the
error case therefore returns the rejection and implies an unchanged state.
After a successful fetch the cache is cleared and rebuilt, and the current
offering is additionally stored under the id default when that key is still
free. -/
def loadOfferings (st : ServiceState)
    (adapterResult : Except String AdapterOfferings) :
    Except String ServiceState :=
  if st.isLoadingOfferings then .ok st
  else
    match adapterResult with
    | .error e => .error e
    | .ok offerings =>
        let cache₁ := buildOffersCache offerings.all
        let cache₂ :=
          match offerings.current with
          | some cur =>
              if (mapGet cache₁ "default").isSome then cache₁
              else mapSet cache₁ "default" (parseOffering "default" cur)
          | none => cache₁
        .ok { st with offersCache := cache₂, isLoadingOfferings := false }

/-- The package search of loadCustomerInfo: walk the cached offers in
insertion order and find the first package whose product id matches,
yielding its packageId and period. -/
def findPkgByProduct :
    List (String × SubscriptionOffer) → String →
      Option (String × Option SubscriptionPeriod)
  | [], _ => none
  | (_, offer) :: rest, target =>
      match offer.packages.find? (fun p => p.product.map (·.productId) = some target) with
      | some pkg => some (pkg.packageId, pkg.product.map (·.period))
      | none => findPkgByProduct rest target

/-- SubscriptionService.hasLoadedOfferings: offersCache.size > 0. -/
def hasLoadedOfferings (st : ServiceState) : Bool :=
  st.offersCache.length > 0

/-- SubscriptionService.hasLoadedCustomerInfo: currentSubscription not null. -/
def hasLoadedCustomerInfo (st : ServiceState) : Bool :=
  st.currentSubscription.isSome

/-- SubscriptionService.getOffer: plain cache lookup. -/
def getOffer (st : ServiceState) (offerId : String) : Option SubscriptionOffer :=
  mapGet st.offersCache offerId

/-- SubscriptionService.getOfferIds. -/
def getOfferIds (st : ServiceState) : List String :=
  st.offersCache.map Prod.fst

/-- SubscriptionService.getCurrentSubscription. -/
def getCurrentSubscription (st : ServiceState) : Option CurrentSubscription :=
  st.currentSubscription

/-- SubscriptionService.loadCustomerInfo, as a function of the state and of
the results of the two adapter calls it can await: the loadOfferings it
first performs when no offerings are cached, and the getCustomerInfo fetch.
Both awaits sit in a try/finally with no catch, so either rejection
propagates. On success the currentSubscription snapshot is replaced: empty
active entitlements give an inactive snapshot, otherwise the first active
entitlement is resolved against the cached catalog. -/
def loadCustomerInfo (st : ServiceState)
    (offeringsResult : Except String AdapterOfferings)
    (customerResult : Except String AdapterCustomerInfo) :
    Except String ServiceState :=
  if st.isLoadingCustomerInfo then .ok st
  else
    match
      (if hasLoadedOfferings st then .ok st else loadOfferings st offeringsResult :
        Except String ServiceState) with
    | .error e => .error e
    | .ok st₁ =>
        match customerResult with
        | .error e => .error e
        | .ok customerInfo =>
            match customerInfo.entitlements with
            | [] =>
                .ok { st₁ with
                  currentSubscription :=
                    some { isActive := false, entitlements := [] }
                  isLoadingCustomerInfo := false }
            | (_, firstEntitlement) :: _ =>
                let found :=
                  findPkgByProduct st₁.offersCache firstEntitlement.productIdentifier
                .ok { st₁ with
                  currentSubscription := some
                    { isActive := true
                      productId := some firstEntitlement.productIdentifier
                      packageId := found.map (·.1)
                      entitlements := customerInfo.entitlements.map Prod.fst
                      period := found.bind (·.2)
                      expirationDate := firstEntitlement.expirationDate
                      willRenew := some firstEntitlement.willRenew }
                  isLoadingCustomerInfo := false }

/-- Modelled from the spec: SubscriptionService.clearCustomerInfo. The
method is called by setSubscriptionUserId but its definition is missing
from the staged sources; the spec says the current-subscription snapshot is
explicitly invalidated without touching the catalog when the active user
identity changes. -/
def clearCustomerInfo (st : ServiceState) : ServiceState :=
  { st with currentSubscription := none }

/-- A registered user-id-change listener, identified by its object identity
(id) and modelled by the one behaviour claim C7 quantifies over: whether it
calls its own unsubscribe handle when invoked. -/
structure ListenerSpec where
  id : Nat
  selfUnsub : Bool
deriving DecidableEq, Repr

/-- The unsubscribe closure of onSubscriptionUserIdChange: indexOf of the
listener (its first occurrence, object identity being the id here) and a
one-element splice. -/
def removeListener : List ListenerSpec → Nat → List ListenerSpec
  | [], _ => []
  | l :: rest, i => if l.id = i then rest else l :: removeListener rest i

/-- The singleton module state of src core singleton. -/
structure SingletonState where
  inst : Option ServiceState := none
  currentUserId : Option String := none
  userIdChangeListeners : List ListenerSpec := []
deriving DecidableEq, Repr

/-- The JS for..of notification loop over the live listener array: the array
iterator yields the element at index idx of the current array contents, so a
splice performed by an invoked listener shifts what the remaining indices
denote. fuel only bounds the recursion; fuel = initial length suffices
because the iteration stops at idx equal to the live length and splices only
shrink the array. Returns the invoked listener ids in order, and the final
array. -/
def notifyLoopFuel :
    Nat → List ListenerSpec → Nat → List Nat → List Nat × List ListenerSpec
  | 0, arr, _, called => (called, arr)
  | fuel + 1, arr, idx, called =>
      match harr : arr.get? idx with
      | none => (called, arr)
      | some l =>
          notifyLoopFuel fuel (if l.selfUnsub then removeListener arr l.id else arr)
            (idx + 1) (called ++ [l.id])

/-- The notification loop of setSubscriptionUserId. -/
def notifyUserIdChange (arr : List ListenerSpec) : List Nat × List ListenerSpec :=
  notifyLoopFuel arr.length arr 0 []

/-- setSubscriptionUserId (src core singleton): a same-user call is a no-op;
otherwise the module user id is updated, the adapter is told (external, no
modelled state), the customer info cache of the instance is cleared while
the offerings cache is preserved, and the registered listeners are notified.
Returns the new singleton state and the ids of the listeners invoked. -/
def setSubscriptionUserId (st : SingletonState) (userId : Option String) :
    SingletonState × List Nat :=
  if st.currentUserId = userId then (st, [])
  else
    let inst₂ :=
      match st.inst with
      | some sv => some (clearCustomerInfo sv)
      | none => none
    let notified := notifyUserIdChange st.userIdChangeListeners
    ({ inst := inst₂, currentUserId := userId, userIdChangeListeners := notified.2 },
     notified.1)

/-- onSubscriptionUserIdChange: push the listener. The returned unsubscribe
handle is removeListener at the listener identity. -/
def onSubscriptionUserIdChange (st : SingletonState) (l : ListenerSpec) :
    SingletonState :=
  { st with userIdChangeListeners := st.userIdChangeListeners ++ [l] }

/-- createRevenueCatAdapter().getOfferings: empty offerings when no user is
set, and every SDK failure caught and converted to empty offerings, so the
promise never rejects. The SDK outcome is its parameter, already in adapter
shape (the field-by-field conversion is bijective renaming). -/
def adapterGetOfferings (userSet : Bool)
    (sdkResult : Except String AdapterOfferings) :
    Except String AdapterOfferings :=
  if !userSet then .ok { all := [], current := none }
  else
    match sdkResult with
    | .ok offerings => .ok offerings
    | .error _ => .ok { all := [], current := none }

/-- createRevenueCatAdapter().getCustomerInfo: empty customer info when no
user is set, and every SDK failure caught and converted to empty customer
info, so the promise never rejects. -/
def adapterGetCustomerInfo (userSet : Bool)
    (sdkResult : Except String AdapterCustomerInfo) :
    Except String AdapterCustomerInfo :=
  if !userSet then .ok { activeSubscriptions := [], entitlements := [] }
  else
    match sdkResult with
    | .ok info => .ok info
    | .error _ => .ok { activeSubscriptions := [], entitlements := [] }

/-! Claim-side definitions and concrete catalogs used by the theorems. -/

/-- The membership predicate of claim C1, in its words: p has a product, its
packageId differs from the one of the matched package c, the rank of its
period is at least the rank of the period of c, and its level under
calculatePackageLevels over all of ps is at least the level of c. -/
def claimUpgradePred (ps : List SubscriptionPackage) (c p : SubscriptionPackage) :
    Bool :=
  match p.product, c.product with
  | some pprod, some cprod =>
      decide (p.packageId ≠ c.packageId) &&
      decide (PERIOD_RANKS cprod.period ≤ PERIOD_RANKS pprod.period) &&
      decide (getPackageLevel c.packageId ps ≤ getPackageLevel p.packageId ps)
  | _, _ => false

/-- The example catalog of the spec: free (no product), basic_monthly 5,
pro_monthly 10, basic_yearly 50, pro_yearly 100. -/
def examplePackages : List SubscriptionPackage :=
  [ { packageId := "free" },
    { packageId := "basic_monthly",
      product := some { productId := "prod_basic_monthly", price := 5, period := .monthly } },
    { packageId := "pro_monthly",
      product := some { productId := "prod_pro_monthly", price := 10, period := .monthly } },
    { packageId := "basic_yearly",
      product := some { productId := "prod_basic_yearly", price := 50, period := .yearly } },
    { packageId := "pro_yearly",
      product := some { productId := "prod_pro_yearly", price := 100, period := .yearly } } ]

/-- A two-package list sharing one package id: the free entry and a paid
monthly entry. Witnesses that claim C2 fails without distinct ids. -/
def dupIdPackages : List SubscriptionPackage :=
  [ { packageId := "a" },
    { packageId := "a",
      product := some { productId := "prod_a", price := 5, period := .monthly } } ]

/-- The prices of the period group of a paid package, claim C2 wording: the
prices of the packages of ps whose product carries the given period. -/
def periodGroupPrices (ps : List SubscriptionPackage)
    (period : SubscriptionPeriod) : List Rat :=
  (ps.filter (fun q => q.product.map (·.period) = some period)).map pkgPrice

/-- The number of distinct prices of P strictly below x. -/
def countD (P : List Rat) (x : Rat) : Nat :=
  (P.filter (· < x)).dedup.length

/-- The level claim C2 predicts for a paid package: within its period group
the cheapest price gets level 1 and the level increases by exactly 1 at each
strictly greater price, equal prices sharing a level, so a price sits at 1
plus the number of distinct strictly smaller prices of its group. -/
def claimLevel (ps : List SubscriptionPackage) (period : SubscriptionPeriod)
    (price : Rat) : Nat :=
  1 + countD (periodGroupPrices ps period) price

/-- A concrete cached offer for the orchestration-layer witnesses. -/
def exampleOffer : SubscriptionOffer :=
  { offerId := "default", packages := examplePackages }

/-- A concrete initialized service with a loaded catalog and a loaded
customer snapshot. -/
def exampleService : ServiceState :=
  { freeTier := { packageId := "free", name := "Free" }
    offersCache := [("default", exampleOffer)]
    currentSubscription := some { isActive := true, productId := some "prod_pro_monthly" } }

/-- A concrete singleton state around exampleService. -/
def exampleSingleton : SingletonState :=
  { inst := some exampleService
    currentUserId := some "user_1"
    userIdChangeListeners := [{ id := 0, selfUnsub := false }] }

/-- A singleton with three listeners, the first of which unsubscribes itself
when invoked. -/
def exampleListenersState : SingletonState :=
  { inst := none
    currentUserId := none
    userIdChangeListeners :=
      [{ id := 0, selfUnsub := true }, { id := 1, selfUnsub := false },
       { id := 2, selfUnsub := false }] }

/-- A fresh service with nothing loaded and no load in flight. -/
def idleService : ServiceState :=
  { freeTier := { packageId := "free", name := "Free" } }

/-! Helper lemmas. -/

/-- A successful match of the period pattern only yields the units D, W, M, Y. -/
lemma matchPeriodPattern_unit {s : String} {v : Nat} {u : Char}
    (h : matchPeriodPattern s = some (v, u)) :
    u = 'D' ∨ u = 'W' ∨ u = 'M' ∨ u = 'Y' := by
  unfold matchPeriodPattern at h
  split at h
  · exact absurd h (by simp)
  · split at h
    · split at h
      · exact absurd h (by simp)
      · split at h
        · rename_i cond
          injection h with h'
          injection h' with hv hu
          subst hu
          exact cond
        · exact absurd h (by simp)
      · exact absurd h (by simp)
    · exact absurd h (by simp)

/-- On the units the pattern can produce, the switch of the source (break
falling through to the monthly default) agrees with the unit table of the
claim. -/
lemma parseSwitch_eq_claimTable {v : Nat} {u : Char}
    (hu : u = 'D' ∨ u = 'W' ∨ u = 'M' ∨ u = 'Y') :
    (parseSwitchDWMY v u).getD .monthly = claimUnitTable v u := by
  unfold parseSwitchDWMY claimUnitTable
  rcases hu with rfl | rfl | rfl | rfl <;> simp <;> split_ifs <;> rfl

/-- The accumulation loop of findUpgradeablePackages is a filter over the
catalog followed by a projection to package ids. -/
lemma upgradeLoop_eq_filter (matched : String) (cl : Nat)
    (cp : SubscriptionPeriod) (levels : List (String × Nat)) :
    ∀ l : List SubscriptionPackage,
      upgradeLoop l matched cl cp levels =
        (l.filter (fun p =>
          match p.product with
          | some pprod =>
              decide (p.packageId ≠ matched) &&
              decide (PERIOD_RANKS cp ≤ PERIOD_RANKS pprod.period) &&
              decide (cl ≤ (mapGet levels p.packageId).getD 0)
          | none => false)).map (·.packageId) := by
  intro l
  induction l with
  | nil => rfl
  | cons pkg rest ih =>
    cases hp : pkg.product with
    | none => simp [upgradeLoop, List.filter_cons, hp, ih]
    | some pprod =>
      by_cases hid : pkg.packageId = matched
      · simp [upgradeLoop, List.filter_cons, hp, hid, ih]
      · by_cases h1 : PERIOD_RANKS cp ≤ PERIOD_RANKS pprod.period
        · by_cases h2 : cl ≤ (mapGet levels pkg.packageId).getD 0
          · simp [upgradeLoop, List.filter_cons, hp, hid, h1, h2, ih, ge_iff_le]
          · simp [upgradeLoop, List.filter_cons, hp, hid, h1, h2, ih, ge_iff_le]
        · simp [upgradeLoop, List.filter_cons, hp, hid, h1, ih, ge_iff_le]

/-! Claim C3: the period classifier is total and classifies exactly per the
claim table, defaulting to monthly. -/

/-- C3. parseISO8601Period is total by construction and agrees on every
input with the classification the claim states: lifetime for nullish or
empty input, the case-insensitive P(integer)(unit) table otherwise, and
monthly for every other string. -/
theorem parseISO8601Period_total_classification :
    ∀ d : Option String, parseISO8601Period d = classifyPeriodClaim d := by
  intro d
  cases d with
  | none => rfl
  | some s =>
    simp only [parseISO8601Period, classifyPeriodClaim]
    by_cases hs : s = ""
    · simp [hs]
    · simp only [if_neg hs]
      generalize toUpper s = n
      by_cases h1 : n = "P1W" ∨ n = "P7D"
      · rcases h1 with rfl | rfl <;> decide
      by_cases h2 : n = "P1M"
      · subst h2; decide
      by_cases h3 : n = "P3M"
      · subst h3; decide
      by_cases h4 : n = "P1Y" ∨ n = "P12M"
      · rcases h4 with rfl | rfl <;> decide
      simp only [if_neg h1, if_neg h2, if_neg h3, if_neg h4]
      cases hm : matchPeriodPattern n with
      | none => rfl
      | some vu =>
        exact parseSwitch_eq_claimTable
          (matchPeriodPattern_unit (v := vu.1) (u := vu.2) (by rw [hm]))

/-! Claim C4: an unresolved current reference imposes no restriction. -/

/-- C4. When the current reference yields no truthy id at all, or names ids
matching no package, findUpgradeablePackages returns every package id in
input order. -/
theorem findUpgradeablePackages_fail_open (current : CurrentRef)
    (ps : List SubscriptionPackage) (h : resolveCurrent current ps = none) :
    findUpgradeablePackages current ps = ps.map (·.packageId) := by
  simp only [resolveCurrent] at h
  simp only [findUpgradeablePackages]
  by_cases hf : (!optTruthy (normalizeCurrent current).1 &&
      !optTruthy (normalizeCurrent current).2) = true
  · rw [if_pos hf]
  · rw [if_neg hf] at h ⊢
    rw [h]

/-- Witness for C4 at the nonexistent-id example of the spec. -/
theorem findUpgradeablePackages_fail_open_witness :
    resolveCurrent (.ofParams { packageId := some "nonexistent" }) examplePackages = none ∧
    findUpgradeablePackages (.ofParams { packageId := some "nonexistent" }) examplePackages =
      examplePackages.map (·.packageId) :=
  ⟨by decide, findUpgradeablePackages_fail_open _ _ (by decide)⟩

/-! Claim C5: a free-tier current subscription makes exactly the paid
packages upgradeable. -/

/-- C5. When the current reference resolves to a package without a product,
findUpgradeablePackages returns exactly the ids of the packages that do have
a product, in input order. -/
theorem findUpgradeablePackages_free_tier_current (current : CurrentRef)
    (ps : List SubscriptionPackage) (c : SubscriptionPackage)
    (h : resolveCurrent current ps = some c) (hfree : c.product = none) :
    findUpgradeablePackages current ps =
      (ps.filter (fun p => p.product.isSome)).map (·.packageId) := by
  simp only [resolveCurrent] at h
  simp only [findUpgradeablePackages]
  by_cases hf : (!optTruthy (normalizeCurrent current).1 &&
      !optTruthy (normalizeCurrent current).2) = true
  · rw [if_pos hf] at h; cases h
  · rw [if_neg hf] at h ⊢
    rw [h]
    simp [hfree]

/-- Witness for C5 at the free-tier example of the spec. -/
theorem findUpgradeablePackages_free_tier_current_witness :
    resolveCurrent (.ofParams { packageId := some "free" }) examplePackages =
      some { packageId := "free" } ∧
    findUpgradeablePackages (.ofParams { packageId := some "free" }) examplePackages =
      (examplePackages.filter (fun p => p.product.isSome)).map (·.packageId) :=
  ⟨by decide,
   findUpgradeablePackages_free_tier_current _ _ { packageId := "free" } (by decide) rfl⟩

/-! Claim C1: the matched-paid-current path of findUpgradeablePackages. -/

/-- C1. Whenever the current reference resolves to a package c of ps that
has a product, findUpgradeablePackages returns exactly the ids of the
packages of ps satisfying the claim predicate (paid, different id, period
rank and level at least those of c), in input order with no extra sort; in
particular the two example-catalog calls of the spec return the lists the
claim gives. -/
theorem findUpgradeablePackages_matched_paid_spec :
    (∀ current ps c, resolveCurrent current ps = some c → c.product ≠ none →
        findUpgradeablePackages current ps =
          (ps.filter (claimUpgradePred ps c)).map (·.packageId)) ∧
    findUpgradeablePackages (.ofParams { packageId := some "basic_monthly" })
        examplePackages = ["pro_monthly", "basic_yearly", "pro_yearly"] ∧
    findUpgradeablePackages (.ofParams { packageId := some "pro_yearly" })
        examplePackages = [] := by
  refine ⟨?_, by decide, by decide⟩
  intro current ps c h hprod
  obtain ⟨cprod, hcp⟩ := Option.ne_none_iff_exists'.mp hprod
  simp only [resolveCurrent] at h
  simp only [findUpgradeablePackages]
  by_cases hf : (!optTruthy (normalizeCurrent current).1 &&
      !optTruthy (normalizeCurrent current).2) = true
  · rw [if_pos hf] at h; cases h
  · rw [if_neg hf] at h ⊢
    rw [h]
    simp only [hcp]
    rw [upgradeLoop_eq_filter]
    congr 1
    apply List.filter_congr
    intro p hp
    simp only [claimUpgradePred, hcp, getPackageLevel]
    cases p.product <;> rfl

/-! Lemmas about the JS map model. -/

lemma mapGet_mapSet_self {κ α : Type} [DecidableEq κ] (m : List (κ × α))
    (k : κ) (v : α) : mapGet (mapSet m k v) k = some v := by
  induction m with
  | nil => simp [mapSet, mapGet]
  | cons kv rest ih =>
    obtain ⟨k₀, v₀⟩ := kv
    by_cases hk : k₀ = k
    · simp [mapSet, mapGet, hk]
    · simp [mapSet, mapGet, hk, ih]

lemma mapGet_mapSet_ne {κ α : Type} [DecidableEq κ] (m : List (κ × α))
    (k k' : κ) (v : α) (h : k' ≠ k) :
    mapGet (mapSet m k v) k' = mapGet m k' := by
  have hne : ¬(k = k') := fun hh => h hh.symm
  induction m with
  | nil => simp [mapSet, mapGet, hne]
  | cons kv rest ih =>
    obtain ⟨k₀, v₀⟩ := kv
    by_cases hk : k₀ = k
    · subst hk
      simp [mapSet, mapGet, hne]
    · by_cases hk' : k₀ = k'
      · simp [mapSet, mapGet, hk, hk', h]
      · simp [mapSet, mapGet, hk, hk', ih]

lemma mapSet_keys_of_mem {κ α : Type} [DecidableEq κ] {m : List (κ × α)}
    {k : κ} (v : α) (h : k ∈ m.map Prod.fst) :
    (mapSet m k v).map Prod.fst = m.map Prod.fst := by
  induction m with
  | nil => cases h
  | cons kv rest ih =>
    by_cases hk : kv.1 = k
    · simp [mapSet, hk]
    · rw [List.map_cons] at h
      rcases List.mem_cons.mp h with h' | h'
      · exact absurd h'.symm hk
      · simp [mapSet, hk, ih h']

lemma mapSet_keys_of_not_mem {κ α : Type} [DecidableEq κ] {m : List (κ × α)}
    {k : κ} (v : α) (h : k ∉ m.map Prod.fst) :
    (mapSet m k v).map Prod.fst = m.map Prod.fst ++ [k] := by
  induction m with
  | nil => simp [mapSet]
  | cons kv rest ih =>
    rw [List.map_cons] at h
    have hk : kv.1 ≠ k := fun hh => h (hh ▸ List.mem_cons_self _ _)
    have hrest : k ∉ rest.map Prod.fst := fun hh => h (List.mem_cons_of_mem _ hh)
    simp [mapSet, hk, ih hrest]

lemma mapGet_isSome_iff_mem_keys {κ α : Type} [DecidableEq κ]
    (m : List (κ × α)) (k : κ) :
    (mapGet m k).isSome ↔ k ∈ m.map Prod.fst := by
  induction m with
  | nil => simp [mapGet]
  | cons kv rest ih =>
    by_cases hk : kv.1 = k
    · simp [mapGet, hk]
    · rw [List.map_cons]
      simp only [mapGet, if_neg hk]
      rw [ih]
      constructor
      · exact fun h => List.mem_cons_of_mem _ h
      · intro h
        rcases List.mem_cons.mp h with h | h
        · exact absurd h.symm hk
        · exact h

lemma mapSet_keys_nodup {κ α : Type} [DecidableEq κ] (m : List (κ × α))
    (k : κ) (v : α) (h : (m.map Prod.fst).Nodup) :
    ((mapSet m k v).map Prod.fst).Nodup := by
  by_cases hk : k ∈ m.map Prod.fst
  · rw [mapSet_keys_of_mem v hk]; exact h
  · rw [mapSet_keys_of_not_mem v hk, List.nodup_append]
    refine ⟨h, List.nodup_singleton k, ?_⟩
    intro a ha hak
    rw [List.mem_singleton] at hak
    exact hk (hak ▸ ha)

lemma mapGet_of_mem_of_nodup {κ α : Type} [DecidableEq κ]
    {m : List (κ × α)} {k : κ} {v : α} (hnd : (m.map Prod.fst).Nodup)
    (h : (k, v) ∈ m) : mapGet m k = some v := by
  induction m with
  | nil => cases h
  | cons kv rest ih =>
    simp only [List.map_cons, List.nodup_cons] at hnd
    rcases List.mem_cons.mp h with rfl | h'
    · simp [mapGet]
    · have hne : kv.1 ≠ k := by
        intro hh
        exact hnd.1 (hh ▸ (List.mem_map.mpr ⟨(k, v), h', rfl⟩))
      simp [mapGet, hne, ih hnd.2 h']

/-! Lemmas about the grouping loop of calculatePackageLevels. -/

/-- The levels component after the first loop: a key holds 0 when some free
package of the remaining input carries it, and is otherwise what the
accumulator already held. -/
lemma levelsPhase1Aux_levels_get (k : String) :
    ∀ (ps : List SubscriptionPackage) (levels : List (String × Nat))
      (byPeriod : List (SubscriptionPeriod × List SubscriptionPackage)),
      mapGet (levelsPhase1Aux levels byPeriod ps).1 k =
        if ∃ pkg ∈ ps, pkg.packageId = k ∧ pkg.product = none then some 0
        else mapGet levels k := by
  intro ps
  induction ps with
  | nil => intro levels byPeriod; simp [levelsPhase1Aux]
  | cons pkg rest ih =>
    intro levels byPeriod
    cases hp : pkg.product with
    | none =>
      by_cases hk : pkg.packageId = k
      · have hex : ∃ p ∈ pkg :: rest, p.packageId = k ∧ p.product = none :=
          ⟨pkg, List.mem_cons_self _ _, hk, hp⟩
        rw [if_pos hex]
        simp only [levelsPhase1Aux, hp]
        rw [ih]
        by_cases hrest : ∃ p ∈ rest, p.packageId = k ∧ p.product = none
        · rw [if_pos hrest]
        · rw [if_neg hrest, hk, mapGet_mapSet_self]
      · simp only [levelsPhase1Aux, hp]
        rw [ih]
        by_cases hrest : ∃ p ∈ rest, p.packageId = k ∧ p.product = none
        · rw [if_pos hrest,
            if_pos (hrest.elim fun p hp' => ⟨p, List.mem_cons_of_mem _ hp'.1, hp'.2⟩)]
        · rw [if_neg hrest, mapGet_mapSet_ne _ _ _ _ (fun hh => hk hh.symm),
            if_neg]
          rintro ⟨p, hmem, hpk, hpfree⟩
          rcases List.mem_cons.mp hmem with rfl | hmem'
          · exact hk hpk
          · exact hrest ⟨p, hmem', hpk, hpfree⟩
    | some prod =>
      simp only [levelsPhase1Aux, hp]
      rw [ih]
      by_cases hrest : ∃ p ∈ rest, p.packageId = k ∧ p.product = none
      · rw [if_pos hrest,
          if_pos (hrest.elim fun p hp' => ⟨p, List.mem_cons_of_mem _ hp'.1, hp'.2⟩)]
      · rw [if_neg hrest, if_neg]
        rintro ⟨p, hmem, hpk, hpfree⟩
        rcases List.mem_cons.mp hmem with rfl | hmem'
        · rw [hp] at hpfree; cases hpfree
        · exact hrest ⟨p, hmem', hpk, hpfree⟩

/-- The byPeriod component after the first loop: the group of a period is
what the accumulator held extended by the paid packages of the remaining
input carrying that period, in input order. -/
lemma levelsPhase1Aux_groups_get (π : SubscriptionPeriod) :
    ∀ (ps : List SubscriptionPackage) (levels : List (String × Nat))
      (byPeriod : List (SubscriptionPeriod × List SubscriptionPackage)),
      mapGet (levelsPhase1Aux levels byPeriod ps).2 π =
        if ps.filter (fun p => p.product.map (·.period) = some π) = [] then
          mapGet byPeriod π
        else
          some ((mapGet byPeriod π).getD [] ++
            ps.filter (fun p => p.product.map (·.period) = some π)) := by
  intro ps
  induction ps with
  | nil => intro levels byPeriod; simp [levelsPhase1Aux]
  | cons pkg rest ih =>
    intro levels byPeriod
    cases hp : pkg.product with
    | none =>
      have hfil : (pkg :: rest).filter (fun p => p.product.map (·.period) = some π) =
          rest.filter (fun p => p.product.map (·.period) = some π) := by
        simp [List.filter_cons, hp]
      simp only [levelsPhase1Aux, hp]
      rw [ih, hfil]
    | some prod =>
      by_cases hπ : prod.period = π
      · subst hπ
        have hfil : (pkg :: rest).filter (fun p => p.product.map (·.period) = some prod.period) =
            pkg :: rest.filter (fun p => p.product.map (·.period) = some prod.period) := by
          simp [List.filter_cons, hp]
        simp only [levelsPhase1Aux, hp]
        rw [ih, hfil, mapGet_mapSet_self,
          if_neg (List.cons_ne_nil pkg _)]
        by_cases hrest : rest.filter (fun p => p.product.map (·.period) = some prod.period) = []
        · rw [if_pos (by exact_mod_cast hrest), hrest]
        · rw [if_neg (by exact_mod_cast hrest)]
          simp
      · have hfil : (pkg :: rest).filter (fun p => p.product.map (·.period) = some π) =
            rest.filter (fun p => p.product.map (·.period) = some π) := by
          simp [List.filter_cons, hp, hπ]
        simp only [levelsPhase1Aux, hp]
        rw [ih, hfil, mapGet_mapSet_ne _ _ _ _ (fun hh => hπ hh.symm)]

/-- The byPeriod map keeps its keys distinct. -/
lemma levelsPhase1Aux_keys_nodup :
    ∀ (ps : List SubscriptionPackage) (levels : List (String × Nat))
      (byPeriod : List (SubscriptionPeriod × List SubscriptionPackage)),
      ((byPeriod.map Prod.fst).Nodup) →
      (((levelsPhase1Aux levels byPeriod ps).2.map Prod.fst).Nodup) := by
  intro ps
  induction ps with
  | nil => intro levels byPeriod h; simpa [levelsPhase1Aux] using h
  | cons pkg rest ih =>
    intro levels byPeriod h
    cases hp : pkg.product with
    | none => simp only [levelsPhase1Aux, hp]; exact ih _ _ h
    | some prod =>
      simp only [levelsPhase1Aux, hp]
      exact ih _ _ (mapSet_keys_nodup _ _ _ h)

/-! Lemmas about the stable price sort. -/

open List in
lemma insertByPrice_perm (p : SubscriptionPackage) (l : List SubscriptionPackage) :
    insertByPrice p l ~ p :: l := by
  induction l with
  | nil => exact List.Perm.refl _
  | cons q qs ih =>
    simp only [insertByPrice]
    by_cases h : pkgPrice p < pkgPrice q
    · rw [if_pos h]
    · rw [if_neg h]
      exact (ih.cons q).trans (List.Perm.swap p q qs)

open List in
lemma sortByPrice_perm (l : List SubscriptionPackage) : sortByPrice l ~ l := by
  suffices h : ∀ (l acc : List SubscriptionPackage),
      l.foldl (fun acc p => insertByPrice p acc) acc ~ acc ++ l by
    simpa using h l []
  intro l
  induction l with
  | nil => intro acc; simp
  | cons p rest ih =>
    intro acc
    calc (p :: rest).foldl (fun acc p => insertByPrice p acc) acc
        = rest.foldl (fun acc p => insertByPrice p acc) (insertByPrice p acc) := rfl
      _ ~ insertByPrice p acc ++ rest := ih _
      _ ~ (p :: acc) ++ rest := (insertByPrice_perm p acc).append_right rest
      _ ~ acc ++ p :: rest := List.perm_middle.symm

lemma insertByPrice_sorted (p : SubscriptionPackage)
    {l : List SubscriptionPackage}
    (h : (l.map pkgPrice).Sorted (· ≤ ·)) :
    ((insertByPrice p l).map pkgPrice).Sorted (· ≤ ·) := by
  induction l with
  | nil => simp [insertByPrice, List.Sorted]
  | cons q qs ih =>
    rw [List.map_cons, List.sorted_cons] at h
    simp only [insertByPrice]
    by_cases hlt : pkgPrice p < pkgPrice q
    · rw [if_pos hlt, List.map_cons, List.sorted_cons]
      refine ⟨?_, ?_⟩
      · intro b hb
        rw [List.map_cons] at hb
        rcases List.mem_cons.mp hb with rfl | hb'
        · exact le_of_lt hlt
        · exact le_of_lt (lt_of_lt_of_le hlt (h.1 b hb'))
      · rw [List.map_cons, List.sorted_cons]
        exact h
    · rw [if_neg hlt, List.map_cons, List.sorted_cons]
      refine ⟨?_, ih h.2⟩
      intro b hb
      have hperm : List.Perm ((insertByPrice p qs).map pkgPrice)
          (pkgPrice p :: qs.map pkgPrice) := by
        simpa using (insertByPrice_perm p qs).map pkgPrice
      rcases List.mem_cons.mp (hperm.mem_iff.mp hb) with rfl | hb'
      · exact not_lt.mp hlt
      · exact h.1 b hb'

lemma sortByPrice_sorted (l : List SubscriptionPackage) :
    ((sortByPrice l).map pkgPrice).Sorted (· ≤ ·) := by
  suffices h : ∀ (l acc : List SubscriptionPackage),
      (acc.map pkgPrice).Sorted (· ≤ ·) →
      ((l.foldl (fun acc p => insertByPrice p acc) acc).map pkgPrice).Sorted (· ≤ ·) by
    exact h l [] (by simp [List.Sorted])
  intro l
  induction l with
  | nil => intro acc hacc; simpa using hacc
  | cons p rest ih =>
    intro acc hacc
    exact ih _ (insertByPrice_sorted p hacc)

/-! Lemmas about the distinct-lower-price count. -/

open List in
lemma countD_perm {P P' : List Rat} (h : P ~ P') (x : Rat) :
    countD P x = countD P' x := by
  unfold countD
  exact ((h.filter _).dedup).length_eq

lemma countD_eq_zero {P : List Rat} {x : Rat} (h : ∀ y ∈ P, x ≤ y) :
    countD P x = 0 := by
  unfold countD
  have hfil : P.filter (· < x) = [] := by
    rw [List.filter_eq_nil_iff]
    intro y hy
    simpa using not_lt.mpr (h y hy)
  rw [hfil]
  rfl

lemma countD_succ {P : List Rat} {q p : Rat} (hqp : q < p) (hq : q ∈ P)
    (hgap : ∀ r ∈ P, q < r → p ≤ r) : countD P p = countD P q + 1 := by
  unfold countD
  rw [← List.card_toFinset, ← List.card_toFinset]
  have hset : (P.filter (· < p)).toFinset = insert q (P.filter (· < q)).toFinset := by
    ext r
    simp only [List.mem_toFinset, List.mem_filter, Finset.mem_insert,
      decide_eq_true_eq]
    constructor
    · rintro ⟨hrP, hrp⟩
      rcases lt_trichotomy r q with h | h | h
      · exact Or.inr ⟨hrP, h⟩
      · exact Or.inl h
      · exact absurd (hgap r hrP h) (not_le.mpr hrp)
    · rintro (rfl | ⟨hrP, hrq⟩)
      · exact ⟨hq, hqp⟩
      · exact ⟨hrP, hrq.trans hqp⟩
  rw [hset, Finset.card_insert_of_not_mem]
  simp only [List.mem_toFinset, List.mem_filter, decide_eq_true_eq]
  rintro ⟨-, hqq⟩
  exact absurd hqq (lt_irrefl q)

/-! Lemmas about the level-assignment walk. -/

lemma assignLevels_get_notmem :
    ∀ (s : List SubscriptionPackage) (lv : List (String × Nat)) (cl : Nat)
      (lp : Option Rat) (k : String), k ∉ s.map (·.packageId) →
      mapGet (assignLevels s lv cl lp) k = mapGet lv k := by
  intro s
  induction s with
  | nil => intro lv cl lp k h; rfl
  | cons pkg rest ih =>
    intro lv cl lp k h
    rw [List.map_cons] at h
    have h1 : k ≠ pkg.packageId := fun hh => h (hh ▸ List.mem_cons_self _ _)
    have h2 : k ∉ rest.map (·.packageId) := fun hh => h (List.mem_cons_of_mem _ hh)
    cases lp with
    | none =>
      simp only [assignLevels]
      rw [ih _ _ _ _ h2, mapGet_mapSet_ne _ _ _ _ h1]
    | some q =>
      simp only [assignLevels]
      by_cases hq : q < pkgPrice pkg
      · rw [if_pos hq, ih _ _ _ _ h2, mapGet_mapSet_ne _ _ _ _ h1]
      · rw [if_neg hq, ih _ _ _ _ h2, mapGet_mapSet_ne _ _ _ _ h1]

/-- The invariant the level walk maintains: lastPrice none means nothing was
processed and currentLevel 0; lastPrice q means q is the largest processed
price and currentLevel is 1 plus the number of distinct prices below q. -/
def assignInv (t : List SubscriptionPackage) (P : List Rat) (cl : Nat) :
    Option Rat → Prop
  | none => t = [] ∧ cl = 0
  | some q => q ∈ t.map pkgPrice ∧ (∀ x ∈ t.map pkgPrice, x ≤ q) ∧
      cl = 1 + countD P q

/-- The level the walk records for each package of a sorted suffix: one plus
the number of distinct strictly smaller prices of the whole group. -/
lemma assignLevels_get_spec :
    ∀ (s t : List SubscriptionPackage) (lv : List (String × Nat)) (cl : Nat)
      (lp : Option Rat),
      (((t ++ s).map pkgPrice).Sorted (· ≤ ·)) →
      ((s.map (·.packageId)).Nodup) →
      assignInv t ((t ++ s).map pkgPrice) cl lp →
      ∀ pkg ∈ s,
        mapGet (assignLevels s lv cl lp) pkg.packageId =
          some (1 + countD ((t ++ s).map pkgPrice) (pkgPrice pkg)) := by
  intro s
  induction s with
  | nil => intro t lv cl lp _ _ _ pkg hmem; cases hmem
  | cons h rest ih =>
    intro t lv cl lp hsort hnd hinv pkg hmem
    have hmapapp : (t ++ h :: rest).map pkgPrice =
        t.map pkgPrice ++ pkgPrice h :: rest.map pkgPrice := by
      rw [List.map_append, List.map_cons]
    have hsort' := hsort
    rw [hmapapp, List.Sorted, List.pairwise_append] at hsort'
    obtain ⟨hst, hshr, hcross⟩ := hsort'
    have f1 : ∀ x ∈ t.map pkgPrice, x ≤ pkgPrice h :=
      fun x hx => hcross x hx (pkgPrice h) (List.mem_cons_self _ _)
    have f2 : ∀ y ∈ rest.map pkgPrice, pkgPrice h ≤ y :=
      (List.sorted_cons.mp hshr).1
    rw [List.map_cons, List.nodup_cons] at hnd
    obtain ⟨hhid, hndrest⟩ := hnd
    have happ : (t ++ [h]) ++ rest = t ++ h :: rest := by simp
    cases lp with
    | none =>
      obtain ⟨rfl, rfl⟩ := hinv
      have hz : countD (([] ++ h :: rest).map pkgPrice) (pkgPrice h) = 0 := by
        apply countD_eq_zero
        intro y hy
        rw [List.nil_append, List.map_cons] at hy
        rcases List.mem_cons.mp hy with rfl | hy'
        · exact le_refl _
        · exact f2 y (by simpa using hy')
      have hinv' : assignInv [h] (([h] ++ rest).map pkgPrice) (0 + 1)
          (some (pkgPrice h)) := by
        refine ⟨by simp, by simp, ?_⟩
        have : countD (([h] ++ rest).map pkgPrice) (pkgPrice h) = 0 := hz
        omega
      rcases List.mem_cons.mp hmem with rfl | hmem'
      · simp only [assignLevels]
        rw [assignLevels_get_notmem rest _ _ _ _ hhid, mapGet_mapSet_self]
        rw [hz]
      · have := ih [h] (mapSet lv h.packageId (0 + 1)) (0 + 1)
          (some (pkgPrice h)) hsort hndrest hinv' pkg hmem'
        exact this
    | some q =>
      obtain ⟨hqmem, hqub, hcl⟩ := hinv
      have hqleh : q ≤ pkgPrice h := f1 q hqmem
      by_cases hlt : q < pkgPrice h
      · -- strictly larger price: bump the level
        have hgap : ∀ r ∈ (t ++ h :: rest).map pkgPrice, q < r → pkgPrice h ≤ r := by
          intro r hr hqr
          rw [hmapapp] at hr
          rcases List.mem_append.mp hr with hr' | hr'
          · exact absurd (hqub r hr') (not_le.mpr hqr)
          · rcases List.mem_cons.mp hr' with rfl | hr''
            · exact le_refl _
            · exact f2 r hr''
        have hqP : q ∈ (t ++ h :: rest).map pkgPrice := by
          rw [hmapapp]
          exact List.mem_append.mpr (Or.inl hqmem)
        have hstep : countD ((t ++ h :: rest).map pkgPrice) (pkgPrice h) =
            countD ((t ++ h :: rest).map pkgPrice) q + 1 :=
          countD_succ hlt hqP hgap
        have hinv' : assignInv (t ++ [h]) (((t ++ [h]) ++ rest).map pkgPrice)
            (cl + 1) (some (pkgPrice h)) := by
          refine ⟨by simp, ?_, ?_⟩
          · intro x hx
            rw [List.map_append] at hx
            rcases List.mem_append.mp hx with hx' | hx'
            · exact le_trans (hqub x hx') hqleh
            · rw [List.map_singleton, List.mem_singleton] at hx'
              exact hx' ▸ le_refl _
          · rw [happ]
            omega
        rcases List.mem_cons.mp hmem with rfl | hmem'
        · simp only [assignLevels, if_pos hlt]
          rw [assignLevels_get_notmem rest _ _ _ _ hhid, mapGet_mapSet_self]
          rw [hstep]
          congr 1
          omega
        · have := ih (t ++ [h]) (mapSet lv h.packageId (cl + 1)) (cl + 1)
            (some (pkgPrice h)) (by rw [happ]; exact hsort) hndrest hinv' pkg hmem'
          rw [happ] at this
          simp only [assignLevels, if_pos hlt]
          exact this
      · -- equal price: keep the level
        have heq : pkgPrice h = q := le_antisymm (not_lt.mp hlt) hqleh
        have hinv' : assignInv (t ++ [h]) (((t ++ [h]) ++ rest).map pkgPrice)
            cl (some q) := by
          refine ⟨?_, ?_, ?_⟩
          · rw [List.map_append]
            exact List.mem_append.mpr (Or.inl hqmem)
          · intro x hx
            rw [List.map_append] at hx
            rcases List.mem_append.mp hx with hx' | hx'
            · exact hqub x hx'
            · rw [List.map_singleton, List.mem_singleton] at hx'
              exact hx' ▸ le_of_eq heq
          · rw [happ]
            exact hcl
        rcases List.mem_cons.mp hmem with rfl | hmem'
        · simp only [assignLevels, if_neg hlt]
          rw [assignLevels_get_notmem rest _ _ _ _ hhid, mapGet_mapSet_self, hcl,
            heq]
        · have := ih (t ++ [h]) (mapSet lv h.packageId cl) cl (some q)
            (by rw [happ]; exact hsort) hndrest hinv' pkg hmem'
          rw [happ] at this
          simp only [assignLevels, if_neg hlt]
          exact this

/-- The walk over the stable-sorted group, started fresh, records for every
group member 1 plus the number of distinct strictly smaller group prices,
whatever the incoming levels map holds. -/
lemma assignLevels_sorted_get {g : List SubscriptionPackage}
    (hnd : (g.map (·.packageId)).Nodup) {pkg : SubscriptionPackage}
    (hmem : pkg ∈ g) (lv : List (String × Nat)) :
    mapGet (assignLevels (sortByPrice g) lv 0 none) pkg.packageId =
      some (1 + countD (g.map pkgPrice) (pkgPrice pkg)) := by
  have hperm := sortByPrice_perm g
  have hnd' : ((sortByPrice g).map (·.packageId)).Nodup :=
    ((hperm.map _).nodup_iff).mpr hnd
  have hmem' : pkg ∈ sortByPrice g := hperm.mem_iff.mpr hmem
  have hspec := assignLevels_get_spec (sortByPrice g) [] lv 0 none
    (by simpa using sortByPrice_sorted g) hnd' ⟨rfl, rfl⟩ pkg hmem'
  rw [List.nil_append] at hspec
  rw [hspec, countD_perm (hperm.map pkgPrice)]

lemma mapGet_mem {κ α : Type} [DecidableEq κ] {m : List (κ × α)} {k : κ}
    {v : α} (h : mapGet m k = some v) : (k, v) ∈ m := by
  induction m with
  | nil => cases h
  | cons kv rest ih =>
    obtain ⟨k₀, v₀⟩ := kv
    by_cases hk : k₀ = k
    · subst hk
      simp [mapGet] at h
      rw [← h]
      exact List.mem_cons_self _ _
    · simp only [mapGet, if_neg hk] at h
      exact List.mem_cons_of_mem _ (ih h)

/-- Every group stored by the first loop is the filter of the input at its
period, in input order. -/
lemma levelsPhase1_group_eq (ps : List SubscriptionPackage)
    (π : SubscriptionPeriod) (g : List SubscriptionPackage)
    (hmem : (π, g) ∈ (levelsPhase1 ps).2) :
    g = ps.filter (fun p => p.product.map (·.period) = some π) := by
  have hnd := levelsPhase1Aux_keys_nodup ps [] [] (by simp)
  have hget := mapGet_of_mem_of_nodup hnd (by simpa [levelsPhase1] using hmem)
  have hspec := levelsPhase1Aux_groups_get π ps [] []
  rw [hget] at hspec
  by_cases hfil : ps.filter (fun p => p.product.map (·.period) = some π) = []
  · rw [if_pos hfil] at hspec
    exact absurd hspec (by simp [mapGet])
  · rw [if_neg hfil] at hspec
    simpa [mapGet] using hspec

/-- Frame rule for the period-group fold: a package id in no group keeps its
incoming level. -/
lemma foldl_assign_get_notmem (k : String) :
    ∀ (bp : List (SubscriptionPeriod × List SubscriptionPackage))
      (lv : List (String × Nat)),
      (∀ grp ∈ bp, k ∉ grp.2.map (·.packageId)) →
      mapGet (bp.foldl (fun lv grp => assignLevels (sortByPrice grp.2) lv 0 none) lv) k
        = mapGet lv k := by
  intro bp
  induction bp with
  | nil => intro lv h; rfl
  | cons grp rest ih =>
    intro lv h
    rw [List.foldl_cons, ih _ (fun g hg => h g (List.mem_cons_of_mem _ hg))]
    have hk : k ∉ (sortByPrice grp.2).map (·.packageId) := by
      intro hmem
      exact h grp (List.mem_cons_self _ _)
        (((sortByPrice_perm grp.2).map _).mem_iff.mp hmem)
    exact assignLevels_get_notmem _ _ _ _ _ hk

/-- Value rule for the period-group fold: when some group carries the id and
every group carrying it assigns the same level, that level is the result. -/
lemma foldl_assign_get_value (k : String) (v : Nat) :
    ∀ (bp : List (SubscriptionPeriod × List SubscriptionPackage))
      (lv : List (String × Nat)),
      (∃ grp ∈ bp, k ∈ grp.2.map (·.packageId)) →
      (∀ grp ∈ bp, k ∈ grp.2.map (·.packageId) →
        ∀ lv', mapGet (assignLevels (sortByPrice grp.2) lv' 0 none) k = some v) →
      mapGet (bp.foldl (fun lv grp => assignLevels (sortByPrice grp.2) lv 0 none) lv) k
        = some v := by
  intro bp
  induction bp with
  | nil => rintro lv ⟨grp, hmem, -⟩ -; cases hmem
  | cons grp rest ih =>
    intro lv hex hval
    rw [List.foldl_cons]
    by_cases hrest : ∃ g ∈ rest, k ∈ g.2.map (·.packageId)
    · exact ih _ hrest (fun g hg hk => hval g (List.mem_cons_of_mem _ hg) hk)
    · obtain ⟨g, hgmem, hgk⟩ := hex
      rcases List.mem_cons.mp hgmem with rfl | hgmem'
      · push_neg at hrest
        rw [foldl_assign_get_notmem k rest _ hrest]
        exact hval g (List.mem_cons_self _ _) hgk lv
      · exact absurd ⟨g, hgmem', hgk⟩ hrest

/-- Under distinct package ids, a paid package ends at the level the claim
predicts from its period group. -/
lemma calculatePackageLevels_get_paid (ps : List SubscriptionPackage)
    (hnd : (ps.map (·.packageId)).Nodup) (pkg : SubscriptionPackage)
    (hmem : pkg ∈ ps) (prod : SubscriptionProduct)
    (hp : pkg.product = some prod) :
    mapGet (calculatePackageLevels ps) pkg.packageId =
      some (claimLevel ps prod.period prod.price) := by
  classical
  have hinj := List.inj_on_of_nodup_map hnd
  have hprice : pkgPrice pkg = prod.price := by simp [pkgPrice, hp]
  set g := ps.filter (fun q => q.product.map (·.period) = some prod.period) with hg
  have hpkg_g : pkg ∈ g := by
    rw [hg]
    exact List.mem_filter.mpr ⟨hmem, by simp [hp]⟩
  have hgnd : (g.map (·.packageId)).Nodup := by
    rw [hg]
    exact List.Nodup.sublist ((List.filter_sublist ps).map _) hnd
  have hbpnd := levelsPhase1Aux_keys_nodup ps [] [] (by simp)
  have hspec := levelsPhase1Aux_groups_get prod.period ps [] []
  rw [← hg] at hspec
  rw [if_neg (List.ne_nil_of_mem hpkg_g)] at hspec
  simp only [mapGet, Option.getD_none, List.nil_append] at hspec
  have hentry : (prod.period, g) ∈ (levelsPhase1 ps).2 := by
    simpa [levelsPhase1] using mapGet_mem hspec
  simp only [calculatePackageLevels]
  rw [foldl_assign_get_value pkg.packageId
      (1 + countD (g.map pkgPrice) (pkgPrice pkg)) _ _
      ⟨(prod.period, g), hentry, List.mem_map.mpr ⟨pkg, hpkg_g, rfl⟩⟩ ?hval]
  · rw [hprice]
    simp only [claimLevel, periodGroupPrices, ← hg]
  case hval =>
    rintro ⟨π', g'⟩ hgrp hkgrp lv'
    have hg' := levelsPhase1_group_eq ps π' g' hgrp
    obtain ⟨x, hxg', hxid⟩ := List.mem_map.mp hkgrp
    have hxfil := List.mem_filter.mp (hg' ▸ hxg')
    have hxeq : x = pkg := hinj hxfil.1 hmem hxid
    subst hxeq
    have hπ : π' = prod.period := by
      have h2 := hxfil.2
      simp [hp] at h2
      exact h2.symm
    subst hπ
    have hgg : g' = g := by rw [hg', hg]
    rw [hgg] at hxg' ⊢
    exact assignLevels_sorted_get hgnd hxg' lv'

/-- Under distinct package ids, a package without a product keeps level 0. -/
lemma calculatePackageLevels_get_free (ps : List SubscriptionPackage)
    (hnd : (ps.map (·.packageId)).Nodup) (pkg : SubscriptionPackage)
    (hmem : pkg ∈ ps) (hp : pkg.product = none) :
    mapGet (calculatePackageLevels ps) pkg.packageId = some 0 := by
  have hinj := List.inj_on_of_nodup_map hnd
  simp only [calculatePackageLevels]
  rw [foldl_assign_get_notmem pkg.packageId _ _ ?hnot]
  · have hspec := levelsPhase1Aux_levels_get pkg.packageId ps [] []
    rw [if_pos ⟨pkg, hmem, rfl, hp⟩] at hspec
    simpa [levelsPhase1] using hspec
  case hnot =>
    rintro ⟨π', g'⟩ hgrp hk
    have hg' := levelsPhase1_group_eq ps π' g' hgrp
    obtain ⟨x, hxg', hxid⟩ := List.mem_map.mp hk
    have hxfil := List.mem_filter.mp (hg' ▸ hxg')
    have hxeq : x = pkg := hinj hxfil.1 hmem hxid
    subst hxeq
    have := hxfil.2
    simp [hp] at this

/-! Claim C2: the level assignment, corrected by requiring distinct package
ids (a duplicated id makes the single map entry end at the paid level, so
the free-tier clause of the claim fails as stated). -/

/-- C2 (amended). For every package list with pairwise distinct package
ids, calculatePackageLevels assigns level 0 to every package without a
product, assigns every paid package 1 plus the number of distinct strictly
smaller prices of its period group (the claim wording: cheapest price level
1, one more at each strictly greater price, equal prices equal levels),
omits no input package id, and in particular gives level 1 to every member
of a group whose prices are all equal (hence also to one-package groups). -/
theorem calculatePackageLevels_distinct_ids_spec (ps : List SubscriptionPackage)
    (hnd : (ps.map (·.packageId)).Nodup) :
    (∀ pkg ∈ ps, pkg.product = none →
        mapGet (calculatePackageLevels ps) pkg.packageId = some 0) ∧
    (∀ pkg ∈ ps, ∀ prod, pkg.product = some prod →
        mapGet (calculatePackageLevels ps) pkg.packageId =
          some (claimLevel ps prod.period prod.price)) ∧
    (∀ pkg ∈ ps, (mapGet (calculatePackageLevels ps) pkg.packageId).isSome) ∧
    (∀ pkg ∈ ps, ∀ prod, pkg.product = some prod →
        (∀ q ∈ ps.filter (fun q => q.product.map (·.period) = some prod.period),
          pkgPrice q = prod.price) →
        mapGet (calculatePackageLevels ps) pkg.packageId = some 1) := by
  refine ⟨fun pkg hm hp => calculatePackageLevels_get_free ps hnd pkg hm hp,
    fun pkg hm prod hp => calculatePackageLevels_get_paid ps hnd pkg hm prod hp,
    fun pkg hm => ?_, fun pkg hm prod hp hall => ?_⟩
  · cases hp : pkg.product with
    | none => rw [calculatePackageLevels_get_free ps hnd pkg hm hp]; rfl
    | some prod => rw [calculatePackageLevels_get_paid ps hnd pkg hm prod hp]; rfl
  · rw [calculatePackageLevels_get_paid ps hnd pkg hm prod hp]
    have hzero : countD (periodGroupPrices ps prod.period) prod.price = 0 := by
      apply countD_eq_zero
      intro y hy
      obtain ⟨q, hq, rfl⟩ := List.mem_map.mp hy
      exact le_of_eq (hall q hq).symm
    simp [claimLevel, hzero]

/-- Counterexample to C2 exactly as stated: in a list where the free entry
and a paid monthly entry share the id a, the result maps a to 1, not 0,
although a product-less package with id a is in the list. -/
theorem calculatePackageLevels_dup_id_counterexample :
    (⟨"a", "", none, []⟩ : SubscriptionPackage) ∈ dupIdPackages ∧
    mapGet (calculatePackageLevels dupIdPackages) "a" ≠ some 0 ∧
    mapGet (calculatePackageLevels dupIdPackages) "a" = some 1 := by
  refine ⟨by decide, by decide, by decide⟩

/-- Witness for C2 (amended) at the example catalog of the spec. -/
theorem calculatePackageLevels_distinct_ids_spec_witness :
    (examplePackages.map (·.packageId)).Nodup ∧
    ((∀ pkg ∈ examplePackages, pkg.product = none →
        mapGet (calculatePackageLevels examplePackages) pkg.packageId = some 0) ∧
     (∀ pkg ∈ examplePackages, ∀ prod, pkg.product = some prod →
        mapGet (calculatePackageLevels examplePackages) pkg.packageId =
          some (claimLevel examplePackages prod.period prod.price)) ∧
     (∀ pkg ∈ examplePackages,
        (mapGet (calculatePackageLevels examplePackages) pkg.packageId).isSome) ∧
     (∀ pkg ∈ examplePackages, ∀ prod, pkg.product = some prod →
        (∀ q ∈ examplePackages.filter
            (fun q => q.product.map (·.period) = some prod.period),
          pkgPrice q = prod.price) →
        mapGet (calculatePackageLevels examplePackages) pkg.packageId = some 1)) :=
  ⟨by decide, calculatePackageLevels_distinct_ids_spec examplePackages (by decide)⟩

/-! Claim C6: a user-id change clears only the current-subscription
snapshot, leaving the offers cache untouched. -/

/-- C6. For an initialized service instance, setSubscriptionUserId with a
different user id (a total function here, so it completes without throwing)
leaves the instance with a cleared snapshot: getCurrentSubscription is none
and hasLoadedCustomerInfo is false, while getOffer and getOfferIds answer
exactly as before. -/
theorem setSubscriptionUserId_clears_only_snapshot (st : SingletonState)
    (sv : ServiceState) (userId : Option String)
    (hinst : st.inst = some sv) (hne : st.currentUserId ≠ userId) :
    ∃ sv', (setSubscriptionUserId st userId).1.inst = some sv' ∧
      getCurrentSubscription sv' = none ∧
      hasLoadedCustomerInfo sv' = false ∧
      (∀ offerId, getOffer sv' offerId = getOffer sv offerId) ∧
      getOfferIds sv' = getOfferIds sv := by
  refine ⟨clearCustomerInfo sv, ?_, rfl, rfl, fun _ => rfl, rfl⟩
  simp [setSubscriptionUserId, hinst, hne]

/-- Witness for C6 at a concrete loaded service. -/
theorem setSubscriptionUserId_clears_only_snapshot_witness :
    exampleSingleton.inst = some exampleService ∧
    exampleSingleton.currentUserId ≠ some "user_2" ∧
    (∃ sv', (setSubscriptionUserId exampleSingleton (some "user_2")).1.inst = some sv' ∧
      getCurrentSubscription sv' = none ∧
      hasLoadedCustomerInfo sv' = false ∧
      (∀ offerId, getOffer sv' offerId = getOffer exampleService offerId) ∧
      getOfferIds sv' = getOfferIds exampleService) :=
  ⟨rfl, by decide,
   setSubscriptionUserId_clears_only_snapshot _ _ _ rfl (by decide)⟩

/-! Claim C7: the code iterates the live listener array with an
indexOf/splice unsubscribe, so a self-unsubscribing listener makes the
iterator skip the listener registered right after it — against the claim
that no other notification is skipped. -/

/-- Evaluation of the embedded notification loop at the failing input of
C7: of the three listeners registered at the start, the first unsubscribes
itself during its invocation, listener 2 is still invoked, but listener 1
is skipped, so not every registered listener is notified. -/
theorem setSubscriptionUserId_skips_next_listener :
    exampleListenersState.userIdChangeListeners.map (·.id) = [0, 1, 2] ∧
    (setSubscriptionUserId exampleListenersState (some "user_2")).2 = [0, 2] ∧
    (1 : Nat) ∉ (setSubscriptionUserId exampleListenersState (some "user_2")).2 := by
  refine ⟨by decide, by decide, by decide⟩

/-! Claim C8: the service load methods propagate adapter rejections; the
fail-soft conversion lives in the RevenueCat adapter. -/

/-- Counterexample to C8 as stated: with an idle service, a rejecting
adapter makes loadOfferings and loadCustomerInfo reject rather than resolve
to an empty fallback. -/
theorem load_propagates_rejection_counterexample :
    loadOfferings idleService (.error "network") = .error "network" ∧
    loadCustomerInfo idleService (.ok { all := [], current := none })
      (.error "boom") = .error "boom" :=
  ⟨rfl, rfl⟩

/-- A successful adapter fetch always lets loadOfferings resolve. -/
lemma loadOfferings_ok (st : ServiceState) (off : AdapterOfferings) :
    ∃ st', loadOfferings st (.ok off) = .ok st' := by
  unfold loadOfferings
  by_cases hl : st.isLoadingOfferings = true
  · rw [if_pos hl]; exact ⟨st, rfl⟩
  · rw [if_neg hl]; exact ⟨_, rfl⟩

/-- Successful adapter fetches always let loadCustomerInfo resolve. -/
lemma loadCustomerInfo_ok (st : ServiceState) (off : AdapterOfferings)
    (info : AdapterCustomerInfo) :
    ∃ st', loadCustomerInfo st (.ok off) (.ok info) = .ok st' := by
  obtain ⟨subs, ents, murl⟩ := info
  unfold loadCustomerInfo
  by_cases hl : st.isLoadingCustomerInfo = true
  · rw [if_pos hl]; exact ⟨st, rfl⟩
  · rw [if_neg hl]
    by_cases hlo : hasLoadedOfferings st = true
    · rw [if_pos hlo]
      cases ents with
      | nil => exact ⟨_, rfl⟩
      | cons e rest => exact ⟨_, rfl⟩
    · rw [if_neg hlo]
      obtain ⟨st₁, h₁⟩ := loadOfferings_ok st off
      rw [h₁]
      cases ents with
      | nil => exact ⟨_, rfl⟩
      | cons e rest => exact ⟨_, rfl⟩

/-- The adapter conversion layer never yields a rejection. -/
lemma adapterGetOfferings_ok (userSet : Bool)
    (sdkO : Except String AdapterOfferings) :
    ∃ off, adapterGetOfferings userSet sdkO = .ok off := by
  cases userSet <;> cases sdkO <;> exact ⟨_, rfl⟩

/-- The adapter conversion layer never yields a rejection. -/
lemma adapterGetCustomerInfo_ok (userSet : Bool)
    (sdkC : Except String AdapterCustomerInfo) :
    ∃ info, adapterGetCustomerInfo userSet sdkC = .ok info := by
  cases userSet <;> cases sdkC <;> exact ⟨_, rfl⟩

/-- C8 (amended). The fail-soft conversion happens inside the RevenueCat
adapter: its getOfferings and getCustomerInfo never reject, an SDK failure
becoming empty offerings or empty customer info, so the service load calls
driven through that adapter always resolve, a failed catalog fetch leaving
an empty offerings cache and a failed customer fetch leaving an inactive
empty-entitlements snapshot. -/
theorem load_via_adapter_fail_soft :
    (∀ (userSet : Bool) (sdkO : Except String AdapterOfferings),
        (adapterGetOfferings userSet sdkO).isOk = true) ∧
    (∀ (userSet : Bool) (sdkC : Except String AdapterCustomerInfo),
        (adapterGetCustomerInfo userSet sdkC).isOk = true) ∧
    (∀ (st : ServiceState) (userSet : Bool) (sdkO : Except String AdapterOfferings),
        ∃ st', loadOfferings st (adapterGetOfferings userSet sdkO) = .ok st') ∧
    (∀ (st : ServiceState) (e : String), st.isLoadingOfferings = false →
        loadOfferings st (adapterGetOfferings true (.error e)) =
          .ok { st with offersCache := [], isLoadingOfferings := false }) ∧
    (∀ (st : ServiceState) (u₁ u₂ : Bool) (sdkO : Except String AdapterOfferings)
        (sdkC : Except String AdapterCustomerInfo),
        ∃ st', loadCustomerInfo st (adapterGetOfferings u₁ sdkO)
          (adapterGetCustomerInfo u₂ sdkC) = .ok st') ∧
    (∀ (st : ServiceState) (e₁ e₂ : String),
        st.isLoadingCustomerInfo = false → st.isLoadingOfferings = false →
        st.offersCache = [] →
        loadCustomerInfo st (adapterGetOfferings true (.error e₁))
            (adapterGetCustomerInfo true (.error e₂)) =
          .ok { st with
            offersCache := []
            currentSubscription := some { isActive := false, entitlements := [] }
            isLoadingOfferings := false
            isLoadingCustomerInfo := false }) := by
  refine ⟨?_, ?_, ?_, ?_, ?_, ?_⟩
  · intro userSet sdkO
    obtain ⟨off, hoff⟩ := adapterGetOfferings_ok userSet sdkO
    rw [hoff]
    rfl
  · intro userSet sdkC
    obtain ⟨info, hinfo⟩ := adapterGetCustomerInfo_ok userSet sdkC
    rw [hinfo]
    rfl
  · intro st userSet sdkO
    obtain ⟨off, hoff⟩ := adapterGetOfferings_ok userSet sdkO
    rw [hoff]
    exact loadOfferings_ok st off
  · intro st e hl
    simp [loadOfferings, adapterGetOfferings, hl, buildOffersCache]
  · intro st u₁ u₂ sdkO sdkC
    obtain ⟨off, hoff⟩ := adapterGetOfferings_ok u₁ sdkO
    obtain ⟨info, hinfo⟩ := adapterGetCustomerInfo_ok u₂ sdkC
    rw [hoff, hinfo]
    exact loadCustomerInfo_ok st off info
  · intro st e₁ e₂ hlc hlo hcache
    obtain ⟨ft, cache, cur, lo, lc⟩ := st
    simp only at hlc hlo hcache
    subst hlc
    subst hlo
    subst hcache
    simp [loadCustomerInfo, loadOfferings, hasLoadedOfferings,
      adapterGetOfferings, adapterGetCustomerInfo, buildOffersCache]

/-! Claims C9 and C10: the default alias and the loaded-offerings flag. -/

lemma buildCache_get_isSome :
    ∀ (all : List (String × AdapterOffering))
      (acc : List (String × SubscriptionOffer)) (k : String),
      (mapGet (all.foldl (fun c kv => mapSet c kv.1 (parseOffering kv.1 kv.2)) acc) k).isSome ↔
        (mapGet acc k).isSome ∨ k ∈ all.map Prod.fst := by
  intro all
  induction all with
  | nil => intro acc k; simp
  | cons kv rest ih =>
    intro acc k
    rw [List.foldl_cons, ih]
    by_cases hk : kv.1 = k
    · subst hk
      simp [mapGet_mapSet_self]
    · have hk' : ¬ k = kv.1 := fun hh => hk hh.symm
      rw [mapGet_mapSet_ne _ _ _ _ hk']
      simp [hk']

lemma buildOffersCache_get_isSome (all : List (String × AdapterOffering))
    (k : String) :
    (mapGet (buildOffersCache all) k).isSome ↔ k ∈ all.map Prod.fst := by
  have h := buildCache_get_isSome all [] k
  simpa [buildOffersCache, mapGet] using h

/-- What a non-reentrant successful loadOfferings computes. -/
lemma loadOfferings_eval (st : ServiceState) (offerings : AdapterOfferings)
    (hl : st.isLoadingOfferings = false) :
    loadOfferings st (.ok offerings) =
      .ok { st with
        offersCache :=
          match offerings.current with
          | some cur =>
              if (mapGet (buildOffersCache offerings.all) "default").isSome then
                buildOffersCache offerings.all
              else
                mapSet (buildOffersCache offerings.all) "default"
                  (parseOffering "default" cur)
          | none => buildOffersCache offerings.all
        isLoadingOfferings := false } := by
  unfold loadOfferings
  rw [if_neg (by simp [hl])]

/-- C9. After a successful loadOfferings reporting a current offering while
no provider offering is keyed default, the cache gains a default entry
holding the parsed current offering, whose packages are exactly the parsed
packages of the current offering, so getOffer at default succeeds and
getOfferIds lists default; with a default key present or no current
offering, the cache is exactly the one built from the provider map. -/
theorem loadOfferings_default_alias :
    (∀ (st : ServiceState) (offerings : AdapterOfferings) (cur : AdapterOffering),
        st.isLoadingOfferings = false → offerings.current = some cur →
        "default" ∉ offerings.all.map Prod.fst →
        ∃ st', loadOfferings st (.ok offerings) = .ok st' ∧
          getOffer st' "default" = some (parseOffering "default" cur) ∧
          "default" ∈ getOfferIds st' ∧
          (parseOffering "default" cur).packages =
            cur.availablePackages.map
              (parsePackage · (extractEntitlementsFromMetadata cur.metadata))) ∧
    (∀ (st : ServiceState) (offerings : AdapterOfferings),
        st.isLoadingOfferings = false →
        (offerings.current = none ∨ "default" ∈ offerings.all.map Prod.fst) →
        loadOfferings st (.ok offerings) =
          .ok { st with offersCache := buildOffersCache offerings.all,
                        isLoadingOfferings := false }) := by
  constructor
  · intro st offerings cur hl hcur hnk
    have hnot : ¬ ((mapGet (buildOffersCache offerings.all) "default").isSome = true) := by
      rw [buildOffersCache_get_isSome]
      exact hnk
    refine ⟨{ st with
        offersCache := mapSet (buildOffersCache offerings.all) "default"
          (parseOffering "default" cur)
        isLoadingOfferings := false }, ?_, ?_, ?_, rfl⟩
    · rw [loadOfferings_eval st offerings hl, hcur]
      simp only [if_neg hnot]
    · exact mapGet_mapSet_self _ _ _
    · show "default" ∈ (mapSet (buildOffersCache offerings.all) "default"
        (parseOffering "default" cur)).map Prod.fst
      rw [mapSet_keys_of_not_mem _ (by rw [← mapGet_isSome_iff_mem_keys]; exact hnot)]
      exact List.mem_append.mpr (Or.inr (List.mem_singleton.mpr rfl))
  · intro st offerings hl hdis
    rw [loadOfferings_eval st offerings hl]
    rcases hdis with hcur | hk
    · rw [hcur]
    · cases hcur : offerings.current with
      | none => rfl
      | some cur =>
        have hs : (mapGet (buildOffersCache offerings.all) "default").isSome = true := by
          rw [buildOffersCache_get_isSome]
          exact hk
        simp [hs]

/-- C10. hasLoadedOfferings is true exactly when the offers cache is
non-empty, and a successful loadOfferings yielding no offerings at all
leaves the cache empty and the flag false, indistinguishable from never
having loaded. -/
theorem hasLoadedOfferings_iff_cache_nonempty :
    (∀ st : ServiceState, hasLoadedOfferings st = true ↔ st.offersCache ≠ []) ∧
    (∀ st : ServiceState, st.isLoadingOfferings = false →
        loadOfferings st (.ok { all := [], current := none }) =
          .ok { st with offersCache := [], isLoadingOfferings := false } ∧
        hasLoadedOfferings { st with offersCache := [], isLoadingOfferings := false }
          = false) := by
  constructor
  · intro st
    simp [hasLoadedOfferings, List.length_pos]
  · intro st hl
    exact ⟨loadOfferings_eval st _ hl, rfl⟩

end SubLib

